import Mathlib

/-
Verification of `scripts/switch_platform.py`.

The script reads a configuration file as a list of lines (`readlines`, each
line keeping its trailing newline), rewrites the lines one by one while
tracking two pieces of state (`in_switch_block : bool`,
`current_section : Option string`), and writes the rewritten lines back
(`writelines`).  Since `readlines`/`writelines` are mutually inverse on the
byte level, the whole transformation is faithfully represented as a function
`List (List Char) → List (List Char)` mapping the list of input lines to the
list of output lines.  Every string operation used by the script is embedded
below on `List Char`:

  * `needle in line`            → `containsSub`
  * `line.replace("//","",1)`   → `replaceFirst`
  * `not line.strip()`          → `isBlank`
  * `re.match(r'^\s*', line)`   → `List.takeWhile isSpaceChar`
  * `line[len(indent):]`        → `List.dropWhile isSpaceChar`
  * `re.search(r'(\w+)\s+Configuration', line)` → `searchCfg` (see the
    comment there for why greedy backtracking degenerates to maximal runs)
-/

/-- Python `\s` / `str.strip` whitespace, restricted to ASCII (the script only
ever meets ASCII configuration text). -/
def isSpaceChar (c : Char) : Bool :=
  c = ' ' || c = '\t' || c = '\n' || c = '\r' || c = '\x0b' || c = '\x0c'

/-- Python `\w` word characters, restricted to ASCII. -/
def isWordChar (c : Char) : Bool :=
  c.isAlphanum || c = '_'

/-- Python substring test `needle in haystack`. -/
def containsSub (needle : List Char) : List Char → Bool
  | [] => needle.isPrefixOf []
  | c :: t => needle.isPrefixOf (c :: t) || containsSub needle t

/-- Python `haystack.replace(needle, "", 1)`: delete the first (leftmost)
occurrence of `needle`, if any. -/
def replaceFirst (needle : List Char) : List Char → List Char
  | [] => []
  | c :: t =>
    if needle.isPrefixOf (c :: t) then (c :: t).drop needle.length
    else c :: replaceFirst needle t

/-- Python `not line.strip()`: the line consists of whitespace only. -/
def isBlank (l : List Char) : Bool := l.all isSpaceChar

def startMarker : List Char := "PLATFORM_SWITCH_START".toList

def endMarker : List Char := "PLATFORM_SWITCH_END".toList

def cfgWord : List Char := "Configuration".toList

def slashes : List Char := ['/', '/']

/-- One attempt of `re.search(r'(\w+)\s+Configuration', s)` anchored at the
start of `s`.  Because `\w` and `\s` are disjoint character classes and
`Configuration` starts with a word character, the greedy `\w+` and `\s+` can
never succeed after backtracking below their maximal runs, so a match at this
position exists iff the maximal word run is nonempty, the following maximal
whitespace run is nonempty, and the literal `Configuration` follows
immediately.  Group 1 is the word run. -/
def matchCfgAt (s : List Char) : Option (List Char) :=
  let w := s.takeWhile isWordChar
  if w.isEmpty then none
  else
    let r1 := s.dropWhile isWordChar
    if (r1.takeWhile isSpaceChar).isEmpty then none
    else if cfgWord.isPrefixOf (r1.dropWhile isSpaceChar) then some w
    else none

/-- `re.search` tries positions left to right and returns group 1 of the first
match. -/
def searchCfg : List Char → Option (List Char)
  | [] => none
  | c :: t =>
    match matchCfgAt (c :: t) with
    | some w => some w
    | none => searchCfg t

/-- The loop state of `process_file`: `in_switch_block` and
`current_section` (`None` before any recognized section header). -/
structure SwitchState where
  inBlock : Bool
  currentSection : Option (List Char)
  deriving DecidableEq, Repr

/-- Python truthiness of `current_section` (`not current_section` is true for
`None` and for the empty string). -/
def sectionFalsy : Option (List Char) → Bool
  | none => true
  | some s => s.isEmpty

/-- The body of the `for line in lines` loop of `process_file`, transcribed
branch for branch: returns the updated state and the emitted output line. -/
def processLine (plat : List Char) (st : SwitchState) (line : List Char) :
    SwitchState × List Char :=
  if containsSub startMarker line then ({ st with inBlock := true }, line)
  else if containsSub endMarker line then ({ st with inBlock := false }, line)
  else if !st.inBlock then (st, line)
  else if containsSub cfgWord line then
    match searchCfg line with
    | some w => ({ st with currentSection := some w }, line)
    | none => (st, line)
  else if sectionFalsy st.currentSection || isBlank line then (st, line)
  else
    let sec := st.currentSection.getD []
    let isActive := sec == plat
    let isCommented := containsSub slashes line
    if isActive && isCommented then (st, replaceFirst slashes line)
    else if !isActive && !isCommented then
      (st, line.takeWhile isSpaceChar ++ slashes ++ line.dropWhile isSpaceChar)
    else (st, line)

/-- The whole loop, threading the state through the lines. -/
def processLines (plat : List Char) : SwitchState → List (List Char) → List (List Char)
  | _, [] => []
  | st, l :: ls =>
    (processLine plat st l).2 :: processLines plat (processLine plat st l).1 ls

/-- `process_file` as a function from file content (list of lines) to file
content, for a given detected platform. -/
def process_file (plat : List Char) (lines : List (List Char)) : List (List Char) :=
  processLines plat { inBlock := false, currentSection := none } lines

/-- `{"darwin": "MacOS", "windows": "Windows"}.get(system, "Linux")`. -/
def current_platform (system : List Char) : List Char :=
  if system = "darwin".toList then "MacOS".toList
  else if system = "windows".toList then "Windows".toList
  else "Linux".toList

/-- `platform.system().lower()` fed into the dictionary lookup. -/
def detectPlatform (sysName : List Char) : List Char :=
  current_platform (sysName.map Char.toLower)

/-- Shorthand for string literals as character lists. -/
def L (s : String) : List Char := s.toList

example : containsSub (L "SWITCH") (L "PLATFORM_SWITCH_START") = true := by decide
example : containsSub (L "//") (L "a b c") = false := by decide
example : replaceFirst slashes (L "  // x // y") = L "   x // y" := by decide
example : searchCfg (L "// Windows Configuration\n") = some (L "Windows") := by decide
example : searchCfg (L "//Configuration stuff\n") = none := by decide
example : detectPlatform (L "Darwin") = L "MacOS" := by decide

/-! ### Branch lemmas for `processLine` -/

lemma processLine_start (plat : List Char) (st : SwitchState) (line : List Char)
    (h : containsSub startMarker line = true) :
    processLine plat st line = ({ st with inBlock := true }, line) := by
  simp [processLine, h]

lemma processLine_endm (plat : List Char) (st : SwitchState) (line : List Char)
    (h1 : containsSub startMarker line = false)
    (h2 : containsSub endMarker line = true) :
    processLine plat st line = ({ st with inBlock := false }, line) := by
  simp [processLine, h1, h2]

lemma processLine_outside (plat : List Char) (st : SwitchState) (line : List Char)
    (h1 : containsSub startMarker line = false)
    (h2 : containsSub endMarker line = false)
    (h3 : st.inBlock = false) :
    processLine plat st line = (st, line) := by
  simp [processLine, h1, h2, h3]

lemma processLine_header_some (plat : List Char) (st : SwitchState) (line : List Char)
    (w : List Char)
    (h1 : containsSub startMarker line = false)
    (h2 : containsSub endMarker line = false)
    (h3 : st.inBlock = true)
    (h4 : containsSub cfgWord line = true)
    (h5 : searchCfg line = some w) :
    processLine plat st line = ({ st with currentSection := some w }, line) := by
  simp [processLine, h1, h2, h3, h4, h5]

lemma processLine_header_none (plat : List Char) (st : SwitchState) (line : List Char)
    (h1 : containsSub startMarker line = false)
    (h2 : containsSub endMarker line = false)
    (h3 : st.inBlock = true)
    (h4 : containsSub cfgWord line = true)
    (h5 : searchCfg line = none) :
    processLine plat st line = (st, line) := by
  simp [processLine, h1, h2, h3, h4, h5]

lemma processLine_falsy (plat : List Char) (st : SwitchState) (line : List Char)
    (h1 : containsSub startMarker line = false)
    (h2 : containsSub endMarker line = false)
    (h3 : st.inBlock = true)
    (h4 : containsSub cfgWord line = false)
    (h5 : (sectionFalsy st.currentSection || isBlank line) = true) :
    processLine plat st line = (st, line) := by
  simp only [processLine, h1, h2, h3, h4, h5]
  simp

lemma processLine_body (plat : List Char) (st : SwitchState) (line sec : List Char)
    (h1 : containsSub startMarker line = false)
    (h2 : containsSub endMarker line = false)
    (h3 : st.inBlock = true)
    (h4 : containsSub cfgWord line = false)
    (h5 : st.currentSection = some sec)
    (h6 : sec.isEmpty = false)
    (h7 : isBlank line = false) :
    processLine plat st line =
      (if (sec == plat) && containsSub slashes line then (st, replaceFirst slashes line)
       else if !(sec == plat) && !(containsSub slashes line) then
         (st, line.takeWhile isSpaceChar ++ slashes ++ line.dropWhile isSpaceChar)
       else (st, line)) := by
  simp [processLine, h1, h2, h3, h4, h5, h6, h7, sectionFalsy]

lemma processLine_toggle_on (plat : List Char) (st : SwitchState) (line sec : List Char)
    (h1 : containsSub startMarker line = false)
    (h2 : containsSub endMarker line = false)
    (h3 : st.inBlock = true)
    (h4 : containsSub cfgWord line = false)
    (h5 : st.currentSection = some sec)
    (h6 : sec.isEmpty = false)
    (h7 : isBlank line = false)
    (ha : (sec == plat) = true)
    (hc : containsSub slashes line = true) :
    processLine plat st line = (st, replaceFirst slashes line) := by
  rw [processLine_body plat st line sec h1 h2 h3 h4 h5 h6 h7]
  simp [ha, hc]

lemma processLine_toggle_off (plat : List Char) (st : SwitchState) (line sec : List Char)
    (h1 : containsSub startMarker line = false)
    (h2 : containsSub endMarker line = false)
    (h3 : st.inBlock = true)
    (h4 : containsSub cfgWord line = false)
    (h5 : st.currentSection = some sec)
    (h6 : sec.isEmpty = false)
    (h7 : isBlank line = false)
    (ha : (sec == plat) = false)
    (hc : containsSub slashes line = false) :
    processLine plat st line =
      (st, line.takeWhile isSpaceChar ++ slashes ++ line.dropWhile isSpaceChar) := by
  rw [processLine_body plat st line sec h1 h2 h3 h4 h5 h6 h7]
  simp [ha, hc]

lemma processLine_noop_active (plat : List Char) (st : SwitchState) (line sec : List Char)
    (h1 : containsSub startMarker line = false)
    (h2 : containsSub endMarker line = false)
    (h3 : st.inBlock = true)
    (h4 : containsSub cfgWord line = false)
    (h5 : st.currentSection = some sec)
    (h6 : sec.isEmpty = false)
    (h7 : isBlank line = false)
    (ha : (sec == plat) = true)
    (hc : containsSub slashes line = false) :
    processLine plat st line = (st, line) := by
  rw [processLine_body plat st line sec h1 h2 h3 h4 h5 h6 h7]
  simp [ha, hc]

lemma processLine_noop_inactive (plat : List Char) (st : SwitchState) (line sec : List Char)
    (h1 : containsSub startMarker line = false)
    (h2 : containsSub endMarker line = false)
    (h3 : st.inBlock = true)
    (h4 : containsSub cfgWord line = false)
    (h5 : st.currentSection = some sec)
    (h6 : sec.isEmpty = false)
    (h7 : isBlank line = false)
    (ha : (sec == plat) = false)
    (hc : containsSub slashes line = true) :
    processLine plat st line = (st, line) := by
  rw [processLine_body plat st line sec h1 h2 h3 h4 h5 h6 h7]
  simp [ha, hc]

/-- The state update of `processLine` does not depend on the platform. -/
def stateStep (st : SwitchState) (line : List Char) : SwitchState :=
  if containsSub startMarker line then { st with inBlock := true }
  else if containsSub endMarker line then { st with inBlock := false }
  else if !st.inBlock then st
  else if containsSub cfgWord line then
    match searchCfg line with
    | some w => { st with currentSection := some w }
    | none => st
  else st

lemma fst_processLine (plat : List Char) (st : SwitchState) (line : List Char) :
    (processLine plat st line).1 = stateStep st line := by
  simp only [processLine, stateStep]
  repeat' split
  all_goals rfl

/-! ### Helper lemmas about the string operations -/

lemma containsSub_nil_left (c : List Char) : containsSub [] c = true := by
  cases c <;> simp [containsSub, List.isPrefixOf]

lemma containsSub_cons (q : List Char) (x : Char) (t : List Char)
    (h : containsSub q t = true) : containsSub q (x :: t) = true := by
  simp [containsSub, h]

lemma containsSub_cons_elim (q : List Char) (x : Char) (t : List Char)
    (h : containsSub q (x :: t) = true) :
    q.isPrefixOf (x :: t) = true ∨ containsSub q t = true := by
  simpa only [containsSub, Bool.or_eq_true] using h

lemma containsSub_of_isPrefixOf (q c : List Char) (h : q.isPrefixOf c = true) :
    containsSub q c = true := by
  cases c with
  | nil =>
    cases q with
    | nil => simp [containsSub, List.isPrefixOf]
    | cons x t => simp [List.isPrefixOf] at h
  | cons x t => simp [containsSub, h]

lemma containsSub_append_right (q a b : List Char)
    (h : containsSub q b = true) : containsSub q (a ++ b) = true := by
  induction a with
  | nil => simpa using h
  | cons x t ih => simpa using containsSub_cons q x (t ++ b) ih

lemma replaceFirst_cons_pos (needle : List Char) (x : Char) (t : List Char)
    (h : needle.isPrefixOf (x :: t) = true) :
    replaceFirst needle (x :: t) = (x :: t).drop needle.length := by
  simp [replaceFirst, h]

lemma replaceFirst_cons_neg (needle : List Char) (x : Char) (t : List Char)
    (h : needle.isPrefixOf (x :: t) = false) :
    replaceFirst needle (x :: t) = x :: replaceFirst needle t := by
  simp [replaceFirst, h]

lemma isPrefixOf_of_isPrefixOf_slashes (q : List Char)
    (hq : ∀ x ∈ q, x ≠ '/') :
    ∀ (a b : List Char), q.isPrefixOf (a ++ '/' :: '/' :: b) = true →
      q.isPrefixOf (a ++ b) = true := by
  induction q with
  | nil => intro a b _; simp [List.isPrefixOf]
  | cons x q' ih =>
    intro a b h
    cases a with
    | nil =>
      simp only [List.nil_append, List.isPrefixOf, Bool.and_eq_true, beq_iff_eq] at h
      exact absurd h.1 (hq x (by simp))
    | cons y a' =>
      simp only [List.cons_append, List.isPrefixOf, Bool.and_eq_true, beq_iff_eq] at h ⊢
      exact ⟨h.1, ih (fun z hz => hq z (by simp [hz])) a' b h.2⟩

lemma containsSub_of_containsSub_slashes (q : List Char)
    (hq : ∀ x ∈ q, x ≠ '/') :
    ∀ (a b : List Char), containsSub q (a ++ '/' :: '/' :: b) = true →
      containsSub q (a ++ b) = true := by
  intro a
  induction a with
  | nil =>
    intro b h
    rw [List.nil_append] at h
    rw [List.nil_append]
    cases q with
    | nil => exact containsSub_nil_left b
    | cons x q' =>
      have hpre : ∀ u : List Char, (x :: q').isPrefixOf ('/' :: u) = true → False := by
        intro u hu
        simp only [List.isPrefixOf, Bool.and_eq_true, beq_iff_eq] at hu
        exact hq x (by simp) hu.1
      rcases containsSub_cons_elim _ _ _ h with h' | h'
      · exact absurd h' (fun hc => hpre _ hc)
      · rcases containsSub_cons_elim _ _ _ h' with h'' | h''
        · exact absurd h'' (fun hc => hpre _ hc)
        · exact h''
  | cons y a' ih =>
    intro b h
    rw [List.cons_append] at h
    rw [List.cons_append]
    rcases containsSub_cons_elim _ _ _ h with h' | h'
    · have : q.isPrefixOf ((y :: a') ++ b) = true := by
        apply isPrefixOf_of_isPrefixOf_slashes q hq (y :: a') b
        rw [List.cons_append]
        exact h'
      rw [List.cons_append] at this
      exact containsSub_of_isPrefixOf _ _ this
    · exact containsSub_cons _ _ _ (ih b h')

lemma isPrefixOf_ws_append (q : List Char)
    (hq : ∀ x ∈ q, isSpaceChar x = false) :
    ∀ (i c : List Char), (∀ x ∈ i, isSpaceChar x = true) →
      q.isPrefixOf (i ++ c) = true → q.isPrefixOf c = true := by
  intro i c hi h
  cases i with
  | nil => simpa using h
  | cons y i' =>
    cases q with
    | nil => simp [List.isPrefixOf]
    | cons x q' =>
      exfalso
      rw [List.cons_append] at h
      simp only [List.isPrefixOf, Bool.and_eq_true, beq_iff_eq] at h
      have hx := hq x (by simp)
      rw [h.1, hi y (by simp)] at hx
      cases hx

lemma containsSub_ws_append (q : List Char)
    (hq : ∀ x ∈ q, isSpaceChar x = false) :
    ∀ (i c : List Char), (∀ x ∈ i, isSpaceChar x = true) →
      containsSub q (i ++ c) = true → containsSub q c = true := by
  intro i
  induction i with
  | nil => intro c _ h; simpa using h
  | cons y i' ih =>
    intro c hi h
    rw [List.cons_append] at h
    rcases containsSub_cons_elim _ _ _ h with h' | h'
    · have : q.isPrefixOf c = true := by
        apply isPrefixOf_ws_append q hq (y :: i') c hi
        rw [List.cons_append]
        exact h'
      exact containsSub_of_isPrefixOf _ _ this
    · exact ih c (fun z hz => hi z (by simp [hz])) h'

lemma slash_not_space : isSpaceChar '/' = false := by decide

lemma beq_slash_eq_false (y : Char) (hy : isSpaceChar y = true) :
    (('/' : Char) == y) = false := by
  by_cases hcase : y = '/'
  · subst hcase
    rw [slash_not_space] at hy
    cases hy
  · simp [beq_iff_eq]
    exact fun hcc => hcase hcc.symm

lemma replaceFirst_ws_append (i c : List Char)
    (hi : ∀ x ∈ i, isSpaceChar x = true) :
    replaceFirst slashes (i ++ '/' :: '/' :: c) = i ++ c := by
  induction i with
  | nil =>
    rw [List.nil_append, List.nil_append]
    rw [replaceFirst_cons_pos slashes '/' ('/' :: c) (by simp [slashes, List.isPrefixOf])]
    simp [slashes]
  | cons y i' ih =>
    have hy : isSpaceChar y = true := hi y (by simp)
    have hp : slashes.isPrefixOf (y :: (i' ++ '/' :: '/' :: c)) = false := by
      simp [slashes, List.isPrefixOf, beq_slash_eq_false y hy]
    rw [List.cons_append, replaceFirst_cons_neg slashes y _ hp,
      ih (fun z hz => hi z (by simp [hz])), List.cons_append]

lemma takeWhile_ws_append (i : List Char) (d : Char) (c : List Char)
    (hi : ∀ x ∈ i, isSpaceChar x = true) (hd : isSpaceChar d = false) :
    (i ++ d :: c).takeWhile isSpaceChar = i ∧
    (i ++ d :: c).dropWhile isSpaceChar = d :: c := by
  induction i with
  | nil => simp [List.takeWhile, List.dropWhile, hd]
  | cons y i' ih =>
    have hy : isSpaceChar y = true := hi y (by simp)
    have := ih (fun z hz => hi z (by simp [hz]))
    simp [List.takeWhile, List.dropWhile, hy, this.1, this.2]

lemma length_replaceFirst_slashes :
    ∀ l : List Char, containsSub slashes l = true →
      (replaceFirst slashes l).length + 2 = l.length := by
  intro l
  induction l with
  | nil => intro h; simp [containsSub, List.isPrefixOf, slashes] at h
  | cons x t ih =>
    intro h
    by_cases hp : slashes.isPrefixOf (x :: t) = true
    · rw [replaceFirst_cons_pos _ _ _ hp]
      cases t with
      | nil => simp [slashes, List.isPrefixOf] at hp
      | cons x2 t2 => simp [slashes]
    · rw [Bool.not_eq_true] at hp
      have ht : containsSub slashes t = true := by
        rcases containsSub_cons_elim _ _ _ h with h' | h'
        · rw [hp] at h'; cases h'
        · exact h'
      rw [replaceFirst_cons_neg _ _ _ hp]
      simp only [List.length_cons]
      have := ih ht
      omega

lemma replaceFirst_slashes_ne (l : List Char) (h : containsSub slashes l = true) :
    replaceFirst slashes l ≠ l := by
  intro he
  have := length_replaceFirst_slashes l h
  rw [he] at this
  omega

lemma comment_ne (l : List Char) :
    l.takeWhile isSpaceChar ++ slashes ++ l.dropWhile isSpaceChar ≠ l := by
  intro he
  have hlen : (l.takeWhile isSpaceChar ++ slashes ++ l.dropWhile isSpaceChar).length
      = l.length := by rw [he]
  rw [List.length_append, List.length_append] at hlen
  have hsplit : (l.takeWhile isSpaceChar ++ l.dropWhile isSpaceChar).length = l.length := by
    rw [List.takeWhile_append_dropWhile]
  rw [List.length_append] at hsplit
  have hs : slashes.length = 2 := rfl
  rw [hs] at hlen
  omega

lemma noSlash_startMarker : ∀ x ∈ startMarker, x ≠ '/' := by decide

lemma noSlash_endMarker : ∀ x ∈ endMarker, x ≠ '/' := by decide

lemma noSlash_cfgWord : ∀ x ∈ cfgWord, x ≠ '/' := by decide

lemma noSpace_startMarker : ∀ x ∈ startMarker, isSpaceChar x = false := by decide

lemma noSpace_endMarker : ∀ x ∈ endMarker, isSpaceChar x = false := by decide

lemma noSpace_cfgWord : ∀ x ∈ cfgWord, isSpaceChar x = false := by decide

lemma noSpace_slashes : ∀ x ∈ slashes, isSpaceChar x = false := by decide

lemma mem_replaceFirst (needle : List Char) (c : Char) :
    ∀ l, c ∈ replaceFirst needle l → c ∈ l := by
  intro l
  induction l with
  | nil => simp [replaceFirst]
  | cons x t ih =>
    by_cases hp : needle.isPrefixOf (x :: t) = true
    · rw [replaceFirst_cons_pos _ _ _ hp]
      exact fun h => List.mem_of_mem_drop h
    · rw [Bool.not_eq_true] at hp
      rw [replaceFirst_cons_neg _ _ _ hp]
      intro h
      rcases List.mem_cons.mp h with h | h
      · simp [h]
      · exact List.mem_cons_of_mem _ (ih h)

lemma mem_of_mem_takeWhile (p : Char → Bool) (c : Char) :
    ∀ l : List Char, c ∈ l.takeWhile p → c ∈ l := by
  intro l
  induction l with
  | nil => simp
  | cons x t ih =>
    by_cases hx : p x = true
    · simp only [List.takeWhile, hx]
      intro h
      rcases List.mem_cons.mp h with h | h
      · simp [h]
      · exact List.mem_cons_of_mem _ (ih h)
    · rw [Bool.not_eq_true] at hx
      simp [List.takeWhile, hx]

lemma mem_of_mem_dropWhile (p : Char → Bool) (c : Char) :
    ∀ l : List Char, c ∈ l.dropWhile p → c ∈ l := by
  intro l
  induction l with
  | nil => simp
  | cons x t ih =>
    by_cases hx : p x = true
    · simp only [List.dropWhile, hx]
      exact fun h => List.mem_cons_of_mem _ (ih h)
    · rw [Bool.not_eq_true] at hx
      simp [List.dropWhile, hx]

/-! ### Concrete fixtures -/

/-- The minimal two-section fixture from the specification, stored with both
configuration lines commented. -/
def fixtureLines : List (List Char) :=
  [L "PLATFORM_SWITCH_START\n",
   L "// Windows Configuration\n",
   L "//winline\n",
   L "// MacOS Configuration\n",
   L "//macline\n",
   L "PLATFORM_SWITCH_END\n"]

/-- Expected result of the fixture under platform `Windows`. -/
def fixtureWinOut : List (List Char) :=
  [L "PLATFORM_SWITCH_START\n",
   L "// Windows Configuration\n",
   L "winline\n",
   L "// MacOS Configuration\n",
   L "//macline\n",
   L "PLATFORM_SWITCH_END\n"]

/-- Expected result of the fixture under platform `MacOS`. -/
def fixtureMacOut : List (List Char) :=
  [L "PLATFORM_SWITCH_START\n",
   L "// Windows Configuration\n",
   L "//winline\n",
   L "// MacOS Configuration\n",
   L "macline\n",
   L "PLATFORM_SWITCH_END\n"]

/-- A file with two switchable regions; the second region has no section
header of its own. -/
def twoRegionLines : List (List Char) :=
  [L "PLATFORM_SWITCH_START\n",
   L "// Windows Configuration\n",
   L "PLATFORM_SWITCH_END\n",
   L "PLATFORM_SWITCH_START\n",
   L "body\n",
   L "PLATFORM_SWITCH_END\n"]

/-- Expected result of the two-region file under platform `MacOS`: the body
line of the second region is commented according to the `Windows` section
label left over from the first region. -/
def twoRegionOutMac : List (List Char) :=
  [L "PLATFORM_SWITCH_START\n",
   L "// Windows Configuration\n",
   L "PLATFORM_SWITCH_END\n",
   L "PLATFORM_SWITCH_START\n",
   L "//body\n",
   L "PLATFORM_SWITCH_END\n"]

example : process_file (L "Windows") fixtureLines = fixtureWinOut := by decide
example : process_file (L "MacOS") fixtureLines = fixtureMacOut := by decide
example : process_file (L "MacOS") twoRegionLines = twoRegionOutMac := by decide

/-! ### Claims -/

/-- C1: inside a switchable region, after a recognized section header, a
non-marker, non-header, non-blank line is uncommented (its first `//`
deleted) when the current section label equals the detected platform, and
commented (a `//` inserted after the leading indentation) when it does not;
in particular, on the two-section fixture, platform `Windows` uncomments the
Windows line and leaves the MacOS line commented, and platform `MacOS` does
the reverse. -/
theorem c1_region_toggle :
    (∀ (plat : List Char) (st : SwitchState) (line sec : List Char),
      containsSub startMarker line = false → containsSub endMarker line = false →
      st.inBlock = true → containsSub cfgWord line = false →
      st.currentSection = some sec → sec.isEmpty = false → isBlank line = false →
      ((sec = plat → containsSub slashes line = true →
         (processLine plat st line).2 = replaceFirst slashes line) ∧
       (sec ≠ plat → containsSub slashes line = false →
         (processLine plat st line).2 =
           line.takeWhile isSpaceChar ++ slashes ++ line.dropWhile isSpaceChar))) ∧
    process_file (L "Windows") fixtureLines = fixtureWinOut ∧
    process_file (L "MacOS") fixtureLines = fixtureMacOut := by
  refine ⟨?_, by decide, by decide⟩
  intro plat st line sec h1 h2 h3 h4 h5 h6 h7
  constructor
  · intro ha hc
    rw [processLine_toggle_on plat st line sec h1 h2 h3 h4 h5 h6 h7
      (beq_iff_eq.mpr ha) hc]
  · intro ha hc
    rw [processLine_toggle_off plat st line sec h1 h2 h3 h4 h5 h6 h7
      (beq_eq_false_iff_ne.mpr ha) hc]

/-- Witness for C1: the toggle lemma applied to one concrete active commented
line and one concrete inactive uncommented line. -/
theorem c1_witness :
    (processLine (L "Windows") ⟨true, some (L "Windows")⟩ (L "//w\n")).2 =
      replaceFirst slashes (L "//w\n") ∧
    (processLine (L "Windows") ⟨true, some (L "MacOS")⟩ (L "  m\n")).2 =
      (L "  m\n").takeWhile isSpaceChar ++ slashes ++ (L "  m\n").dropWhile isSpaceChar :=
  ⟨(c1_region_toggle.1 (L "Windows") ⟨true, some (L "Windows")⟩ (L "//w\n") (L "Windows")
      (by decide) (by decide) rfl (by decide) rfl (by decide) (by decide)).1
      rfl (by decide),
   (c1_region_toggle.1 (L "Windows") ⟨true, some (L "MacOS")⟩ (L "  m\n") (L "MacOS")
      (by decide) (by decide) rfl (by decide) rfl (by decide) (by decide)).2
      (by decide) (by decide)⟩

/-- C4 counterexample: a commented line outside any switchable region is
copied unchanged, not uncommented as the claim states. -/
theorem c4_counterexample :
    process_file (L "Windows") [L "//x\n"] = [L "//x\n"] ∧
    process_file (L "Windows") [L "//x\n"] ≠ [L "x\n"] := by decide

/-- C4 (amended): every line outside a switchable region (no marker on the
line, `in_switch_block` false) is copied unchanged by `processLine`. -/
theorem c4_outside_unchanged (plat : List Char) (st : SwitchState) (line : List Char)
    (h1 : containsSub startMarker line = false)
    (h2 : containsSub endMarker line = false)
    (h3 : st.inBlock = false) :
    processLine plat st line = (st, line) :=
  processLine_outside plat st line h1 h2 h3

/-- Witness for the amended C4. -/
theorem c4_witness :
    processLine (L "Windows") ⟨false, none⟩ (L "//x\n") = (⟨false, none⟩, L "//x\n") :=
  c4_outside_unchanged (L "Windows") ⟨false, none⟩ (L "//x\n") (by decide) (by decide) rfl

/-- C5: a line containing a `PLATFORM_SWITCH_START` or `PLATFORM_SWITCH_END`
marker is always emitted verbatim, whatever the state and platform. -/
theorem c5_markers_preserved (plat : List Char) (st : SwitchState) (line : List Char)
    (h : containsSub startMarker line = true ∨ containsSub endMarker line = true) :
    (processLine plat st line).2 = line := by
  rcases h with h | h
  · rw [processLine_start plat st line h]
  · by_cases h1 : containsSub startMarker line = true
    · rw [processLine_start plat st line h1]
    · rw [Bool.not_eq_true] at h1
      rw [processLine_endm plat st line h1 h]

/-- Witness for C5. -/
theorem c5_witness :
    (processLine (L "Windows") ⟨true, some (L "Windows")⟩
      (L "PLATFORM_SWITCH_END\n")).2 = L "PLATFORM_SWITCH_END\n" :=
  c5_markers_preserved (L "Windows") ⟨true, some (L "Windows")⟩
    (L "PLATFORM_SWITCH_END\n") (Or.inr (by decide))

/-- C6: a file containing no marker line is emitted byte-for-byte unchanged
(the block flag never becomes true, so every line is copied verbatim). -/
theorem c6_no_markers_identity (plat : List Char) (lines : List (List Char))
    (h : ∀ l ∈ lines, containsSub startMarker l = false ∧ containsSub endMarker l = false) :
    process_file plat lines = lines := by
  have key : ∀ (ls : List (List Char)) (st : SwitchState), st.inBlock = false →
      (∀ l ∈ ls, containsSub startMarker l = false ∧ containsSub endMarker l = false) →
      processLines plat st ls = ls := by
    intro ls
    induction ls with
    | nil => intro st _ _; rfl
    | cons l t ih =>
      intro st hb hl
      have hstep := processLine_outside plat st l (hl l (by simp)).1 (hl l (by simp)).2 hb
      show (processLine plat st l).2 :: processLines plat (processLine plat st l).1 t = l :: t
      rw [hstep]
      exact congrArg _ (ih st hb fun x hx => hl x (by simp [hx]))
  exact key lines _ rfl h

/-- Witness for C6. -/
theorem c6_witness :
    process_file (L "Windows") [L "//a\n", L "b\n"] = [L "//a\n", L "b\n"] :=
  c6_no_markers_identity (L "Windows") [L "//a\n", L "b\n"] (by decide)

/-- Characterization of the emitted line: it is the input line, the input
line with its first `//` deleted, or the input line with `//` inserted after
its leading whitespace. -/
lemma snd_processLine_cases (plat : List Char) (st : SwitchState) (line : List Char) :
    (processLine plat st line).2 = line ∨
    (processLine plat st line).2 = replaceFirst slashes line ∨
    (processLine plat st line).2 =
      line.takeWhile isSpaceChar ++ slashes ++ line.dropWhile isSpaceChar := by
  simp only [processLine]
  repeat' split
  all_goals simp

/-- C7: the rewrite preserves the number of lines, and no processed line can
acquire a character (in particular a newline) that was not in the input line,
other than the inserted `/` characters — so lines are never inserted,
deleted, split, or merged. -/
theorem c7_line_count_preserved :
    (∀ (plat : List Char) (st : SwitchState) (lines : List (List Char)),
      (processLines plat st lines).length = lines.length) ∧
    (∀ (plat : List Char) (st : SwitchState) (line : List Char) (c : Char),
      c ∈ (processLine plat st line).2 → c ∈ line ∨ c = '/') := by
  constructor
  · intro plat st lines
    induction lines generalizing st with
    | nil => rfl
    | cons l t ih =>
      show ((processLine plat st l).2 :: processLines plat (processLine plat st l).1 t).length
        = (l :: t).length
      simp only [List.length_cons]
      exact congrArg (· + 1) (ih _)
  · intro plat st line c hmem
    rcases snd_processLine_cases plat st line with hc | hc | hc
    · rw [hc] at hmem
      exact Or.inl hmem
    · rw [hc] at hmem
      exact Or.inl (mem_replaceFirst slashes c line hmem)
    · rw [hc] at hmem
      rcases List.mem_append.mp hmem with hmem | hmem
      · rcases List.mem_append.mp hmem with hmem | hmem
        · exact Or.inl (mem_of_mem_takeWhile isSpaceChar c line hmem)
        · right
          rcases List.mem_cons.mp hmem with hmem | hmem
          · exact hmem
          · simpa using hmem
      · exact Or.inl (mem_of_mem_dropWhile isSpaceChar c line hmem)

/-- Witness for C7. -/
theorem c7_witness :
    (processLines (L "Windows") ⟨false, none⟩ [L "a\n", L "b\n"]).length =
      ([L "a\n", L "b\n"] : List (List Char)).length ∧
    ('x' ∈ L "x\n" ∨ 'x' = '/') :=
  ⟨c7_line_count_preserved.1 (L "Windows") ⟨false, none⟩ [L "a\n", L "b\n"],
   c7_line_count_preserved.2 (L "Windows") ⟨false, none⟩ (L "x\n") 'x' (by decide)⟩

/-- C8: the detected platform always lies in `{Windows, MacOS, Linux}`;
`darwin` (after lowercasing) maps to `MacOS`, `windows` to `Windows`, and
everything else to `Linux`. -/
theorem c8_platform_closed_set (s : List Char) :
    (detectPlatform s = L "Windows" ∨ detectPlatform s = L "MacOS" ∨
      detectPlatform s = L "Linux") ∧
    (s.map Char.toLower = L "darwin" → detectPlatform s = L "MacOS") ∧
    (s.map Char.toLower = L "windows" → detectPlatform s = L "Windows") ∧
    (s.map Char.toLower ≠ L "darwin" → s.map Char.toLower ≠ L "windows" →
      detectPlatform s = L "Linux") := by
  unfold detectPlatform current_platform L
  by_cases h1 : s.map Char.toLower = "darwin".toList
  · rw [if_pos h1]
    refine ⟨Or.inr (Or.inl rfl), fun _ => rfl, fun h2 => ?_, fun hnd _ => absurd h1 hnd⟩
    rw [h1] at h2
    exact absurd h2 (by decide)
  · rw [if_neg h1]
    by_cases h2 : s.map Char.toLower = "windows".toList
    · rw [if_pos h2]
      exact ⟨Or.inl rfl, fun hd => absurd hd h1, fun _ => rfl, fun _ hnw => absurd h2 hnw⟩
    · rw [if_neg h2]
      exact ⟨Or.inr (Or.inr rfl), fun hd => absurd hd h1, fun hw => absurd hw h2,
        fun _ _ => rfl⟩

/-- Witness for C8. -/
theorem c8_witness :
    detectPlatform (L "Darwin") = L "MacOS" ∧
    detectPlatform (L "Windows") = L "Windows" ∧
    detectPlatform (L "Linux") = L "Linux" :=
  ⟨(c8_platform_closed_set (L "Darwin")).2.1 (by decide),
   (c8_platform_closed_set (L "Windows")).2.2.1 (by decide),
   (c8_platform_closed_set (L "Linux")).2.2.2 (by decide) (by decide)⟩

/-- C9: inside a region with a known section, the toggle is a no-op on lines
already in their target state: an active-section line without `//` and an
inactive-section line containing `//` are both copied unchanged. -/
theorem c9_toggle_noop (plat : List Char) (st : SwitchState) (line sec : List Char)
    (h1 : containsSub startMarker line = false)
    (h2 : containsSub endMarker line = false)
    (h3 : st.inBlock = true)
    (h4 : containsSub cfgWord line = false)
    (h5 : st.currentSection = some sec)
    (h6 : sec.isEmpty = false)
    (h7 : isBlank line = false) :
    (sec = plat → containsSub slashes line = false → processLine plat st line = (st, line)) ∧
    (sec ≠ plat → containsSub slashes line = true → processLine plat st line = (st, line)) := by
  constructor
  · intro ha hc
    exact processLine_noop_active plat st line sec h1 h2 h3 h4 h5 h6 h7
      (beq_iff_eq.mpr ha) hc
  · intro ha hc
    exact processLine_noop_inactive plat st line sec h1 h2 h3 h4 h5 h6 h7
      (beq_eq_false_iff_ne.mpr ha) hc

/-- Witness for C9. -/
theorem c9_witness :
    processLine (L "Windows") ⟨true, some (L "Windows")⟩ (L "  w\n") =
      (⟨true, some (L "Windows")⟩, L "  w\n") ∧
    processLine (L "Windows") ⟨true, some (L "MacOS")⟩ (L "//m\n") =
      (⟨true, some (L "MacOS")⟩, L "//m\n") :=
  ⟨(c9_toggle_noop (L "Windows") ⟨true, some (L "Windows")⟩ (L "  w\n") (L "Windows")
      (by decide) (by decide) rfl (by decide) rfl (by decide) (by decide)).1
      rfl (by decide),
   (c9_toggle_noop (L "Windows") ⟨true, some (L "MacOS")⟩ (L "//m\n") (L "MacOS")
      (by decide) (by decide) rfl (by decide) rfl (by decide) (by decide)).2
      (by decide) (by decide)⟩

/-- C10: an end marker never resets `current_section`, and consequently a
header-less second region is processed under the last section label of the
first region — on the concrete two-region file its body line is commented,
not copied unchanged. -/
theorem c10_section_persists :
    (∀ (plat : List Char) (st : SwitchState) (line : List Char),
      containsSub startMarker line = false → containsSub endMarker line = true →
      (processLine plat st line).1.currentSection = st.currentSection ∧
      (processLine plat st line).2 = line) ∧
    process_file (L "MacOS") twoRegionLines = twoRegionOutMac ∧
    twoRegionOutMac ≠ twoRegionLines := by
  refine ⟨?_, by decide, by decide⟩
  intro plat st line h1 h2
  rw [processLine_endm plat st line h1 h2]
  exact ⟨rfl, rfl⟩

/-- Witness for C10. -/
theorem c10_witness :
    (processLine (L "MacOS") ⟨true, some (L "Windows")⟩
        (L "PLATFORM_SWITCH_END\n")).1.currentSection = some (L "Windows") ∧
    (processLine (L "MacOS") ⟨true, some (L "Windows")⟩
        (L "PLATFORM_SWITCH_END\n")).2 = L "PLATFORM_SWITCH_END\n" :=
  c10_section_persists.1 (L "MacOS") ⟨true, some (L "Windows")⟩
    (L "PLATFORM_SWITCH_END\n") (by decide) (by decide)

/-! ### Idempotence -/

/-- Sufficient per-line condition for idempotence: on a non-marker,
non-header line that contains `//`, deleting the first `//` must not leave
another `//` and must not create a `Configuration` token or a marker token
(otherwise the second run classifies the line differently). -/
def lineSafe (l : List Char) : Bool :=
  if containsSub startMarker l || containsSub endMarker l || containsSub cfgWord l then true
  else if containsSub slashes l then
    !(containsSub slashes (replaceFirst slashes l) ||
      containsSub cfgWord (replaceFirst slashes l) ||
      containsSub startMarker (replaceFirst slashes l) ||
      containsSub endMarker (replaceFirst slashes l))
  else true

lemma lineSafe_elim (l : List Char) (h : lineSafe l = true)
    (hS : containsSub startMarker l = false) (hE : containsSub endMarker l = false)
    (hC : containsSub cfgWord l = false) (hcom : containsSub slashes l = true) :
    containsSub slashes (replaceFirst slashes l) = false ∧
    containsSub cfgWord (replaceFirst slashes l) = false ∧
    containsSub startMarker (replaceFirst slashes l) = false ∧
    containsSub endMarker (replaceFirst slashes l) = false := by
  rw [lineSafe, hS, hE, hC, hcom] at h
  rw [if_neg (by simp)] at h
  rw [if_pos rfl] at h
  simp only [Bool.not_eq_true', Bool.or_eq_false_iff] at h
  exact ⟨h.1.1.1, h.1.1.2, h.1.2, h.2⟩

/-- Facts about the commented form `indent ++ // ++ rest` of a non-marker,
non-header, non-blank line: it is still a non-marker, non-header, non-blank
line, and it now contains `//`. -/
lemma commented_facts (line : List Char)
    (hS : containsSub startMarker line = false)
    (hE : containsSub endMarker line = false)
    (hC : containsSub cfgWord line = false) :
    containsSub startMarker
      (line.takeWhile isSpaceChar ++ slashes ++ line.dropWhile isSpaceChar) = false ∧
    containsSub endMarker
      (line.takeWhile isSpaceChar ++ slashes ++ line.dropWhile isSpaceChar) = false ∧
    containsSub cfgWord
      (line.takeWhile isSpaceChar ++ slashes ++ line.dropWhile isSpaceChar) = false ∧
    containsSub slashes
      (line.takeWhile isSpaceChar ++ slashes ++ line.dropWhile isSpaceChar) = true ∧
    isBlank (line.takeWhile isSpaceChar ++ slashes ++ line.dropWhile isSpaceChar) = false := by
  have key : ∀ q : List Char, (∀ x ∈ q, x ≠ '/') → containsSub q line = false →
      containsSub q
        (line.takeWhile isSpaceChar ++ slashes ++ line.dropWhile isSpaceChar) = false := by
    intro q hq hline
    cases hqq : containsSub q
        (line.takeWhile isSpaceChar ++ slashes ++ line.dropWhile isSpaceChar) with
    | false => rfl
    | true =>
      have hqq2 : containsSub q
          (line.takeWhile isSpaceChar ++ (slashes ++ line.dropWhile isSpaceChar)) = true := by
        rw [← List.append_assoc]
        exact hqq
      have := containsSub_of_containsSub_slashes q hq
        (line.takeWhile isSpaceChar) (line.dropWhile isSpaceChar) hqq2
      rw [List.takeWhile_append_dropWhile] at this
      rw [hline] at this
      cases this
  refine ⟨key startMarker noSlash_startMarker hS, key endMarker noSlash_endMarker hE,
    key cfgWord noSlash_cfgWord hC, ?_, ?_⟩
  · rw [List.append_assoc]
    exact containsSub_append_right _ _ _
      (containsSub_of_isPrefixOf _ _ (by simp [slashes, List.isPrefixOf]))
  · simp [isBlank, List.all_append, slashes, slash_not_space]

/-- Processing a line a second time, from the same incoming state, changes
nothing (both the resulting state and the emitted line are reproduced),
provided the line is `lineSafe`. -/
lemma processLine_idem (plat : List Char) (st : SwitchState) (line : List Char)
    (h : lineSafe line = true) :
    processLine plat st ((processLine plat st line).2) = processLine plat st line := by
  by_cases hS : containsSub startMarker line = true
  · have heq := processLine_start plat st line hS
    rw [heq]
    exact heq
  · rw [Bool.not_eq_true] at hS
    by_cases hE : containsSub endMarker line = true
    · have heq := processLine_endm plat st line hS hE
      rw [heq]
      exact heq
    · rw [Bool.not_eq_true] at hE
      by_cases hB : st.inBlock = true
      · by_cases hC : containsSub cfgWord line = true
        · cases hsrch : searchCfg line with
          | some w =>
            have heq := processLine_header_some plat st line w hS hE hB hC hsrch
            rw [heq]
            exact heq
          | none =>
            have heq := processLine_header_none plat st line hS hE hB hC hsrch
            rw [heq]
            exact heq
        · rw [Bool.not_eq_true] at hC
          cases hsf : sectionFalsy st.currentSection with
          | true =>
            have heq := processLine_falsy plat st line hS hE hB hC (by rw [hsf]; rfl)
            rw [heq]
            exact heq
          | false =>
            cases hbl : isBlank line with
            | true =>
              have heq := processLine_falsy plat st line hS hE hB hC
                (by rw [hsf, hbl]; rfl)
              rw [heq]
              exact heq
            | false =>
              cases hcs : st.currentSection with
              | none => rw [hcs] at hsf; simp [sectionFalsy] at hsf
              | some sec =>
                have hsecne : sec.isEmpty = false := by
                  rw [hcs] at hsf
                  simpa [sectionFalsy] using hsf
                by_cases hact : (sec == plat) = true
                · by_cases hcom : containsSub slashes line = true
                  · have heq := processLine_toggle_on plat st line sec
                      hS hE hB hC hcs hsecne hbl hact hcom
                    rw [heq]
                    obtain ⟨hrs, hrc, hrst, hren⟩ := lineSafe_elim line h hS hE hC hcom
                    by_cases hrb : isBlank (replaceFirst slashes line) = true
                    · exact processLine_falsy plat st (replaceFirst slashes line)
                        hrst hren hB hrc (by rw [hrb, Bool.or_true])
                    · rw [Bool.not_eq_true] at hrb
                      exact processLine_noop_active plat st (replaceFirst slashes line) sec
                        hrst hren hB hrc hcs hsecne hrb hact hrs
                  · rw [Bool.not_eq_true] at hcom
                    have heq := processLine_noop_active plat st line sec
                      hS hE hB hC hcs hsecne hbl hact hcom
                    rw [heq]
                    exact heq
                · rw [Bool.not_eq_true] at hact
                  by_cases hcom : containsSub slashes line = true
                  · have heq := processLine_noop_inactive plat st line sec
                      hS hE hB hC hcs hsecne hbl hact hcom
                    rw [heq]
                    exact heq
                  · rw [Bool.not_eq_true] at hcom
                    have heq := processLine_toggle_off plat st line sec
                      hS hE hB hC hcs hsecne hbl hact hcom
                    rw [heq]
                    obtain ⟨hoS, hoE, hoC, hocom, honb⟩ := commented_facts line hS hE hC
                    exact processLine_noop_inactive plat st
                      (line.takeWhile isSpaceChar ++ slashes ++ line.dropWhile isSpaceChar)
                      sec hoS hoE hB hoC hcs hsecne honb hact hocom
      · rw [Bool.not_eq_true] at hB
        have heq := processLine_outside plat st line hS hE hB
        rw [heq]
        exact heq

/-- Idempotence of the whole pass, by induction along the lines: the second
run revisits every position in the same state and reproduces the output. -/
lemma processLines_idem (plat : List Char) :
    ∀ (lines : List (List Char)) (st : SwitchState),
      (∀ l ∈ lines, lineSafe l = true) →
      processLines plat st (processLines plat st lines) = processLines plat st lines := by
  intro lines
  induction lines with
  | nil => intro st _; rfl
  | cons l t ih =>
    intro st h
    have hidem := processLine_idem plat st l (h l (by simp))
    show (processLine plat st ((processLine plat st l).2)).2 ::
         processLines plat (processLine plat st ((processLine plat st l).2)).1
           (processLines plat (processLine plat st l).1 t)
       = (processLine plat st l).2 :: processLines plat (processLine plat st l).1 t
    rw [hidem]
    exact congrArg _ (ih (processLine plat st l).1 fun x hx => h x (by simp [hx]))

/-- C2 counterexample: a file whose active-section line contains `//` twice.
The first run deletes one `//`, the second run deletes the other, so running
`process_file` twice differs from running it once. -/
def c2BadLines : List (List Char) :=
  [L "PLATFORM_SWITCH_START\n",
   L "Windows Configuration\n",
   L "// x //y\n"]

/-- C2 is false as stated: `process_file` is not idempotent on every file. -/
theorem c2_counterexample :
    process_file (L "Windows") (process_file (L "Windows") c2BadLines) ≠
      process_file (L "Windows") c2BadLines := by decide

/-- C2 (amended): `process_file` is idempotent on every file whose lines are
all `lineSafe` (deleting the first `//` of a toggleable line leaves no
second `//` and creates no `Configuration` or marker token). -/
theorem c2_idempotent_of_safe (plat : List Char) (lines : List (List Char))
    (h : ∀ l ∈ lines, lineSafe l = true) :
    process_file plat (process_file plat lines) = process_file plat lines :=
  processLines_idem plat lines _ h

/-- Witness for the amended C2 on the two-section fixture. -/
theorem c2_witness :
    process_file (L "Windows") (process_file (L "Windows") fixtureLines) =
      process_file (L "Windows") fixtureLines :=
  c2_idempotent_of_safe (L "Windows") fixtureLines (by decide)

/-! ### Round trip -/

/-- Canonical comment form needed for the round trip: on a non-marker,
non-header line containing `//`, the first `//` must sit directly after the
leading whitespace, be followed by a non-whitespace character, and no second
`//` may occur. -/
def roundSafe (l : List Char) : Bool :=
  if containsSub startMarker l || containsSub endMarker l || containsSub cfgWord l then true
  else if containsSub slashes l then
    match l.dropWhile isSpaceChar with
    | '/' :: '/' :: d :: c' => !isSpaceChar d && !containsSub slashes (d :: c')
    | _ => false
  else true

lemma roundSafe_elim (l : List Char) (h : roundSafe l = true)
    (hS : containsSub startMarker l = false) (hE : containsSub endMarker l = false)
    (hC : containsSub cfgWord l = false) (hcom : containsSub slashes l = true) :
    ∃ d c', l.dropWhile isSpaceChar = '/' :: '/' :: d :: c' ∧
      isSpaceChar d = false ∧ containsSub slashes (d :: c') = false := by
  rw [roundSafe, hS, hE, hC, hcom] at h
  rw [if_neg (by simp)] at h
  rw [if_pos rfl] at h
  split at h
  · rename_i d c' heq
    simp only [Bool.and_eq_true, Bool.not_eq_true'] at h
    exact ⟨d, c', heq, h.1, h.2⟩
  · simp at h

/-- Processing the `A`-output of a line from the same state under `B` gives
the same result as processing the original line under `B`, provided the line
is in canonical comment form and `B` leaves the original line unchanged. -/
lemma processLine_roundTrip (A B : List Char) (st : SwitchState) (line : List Char)
    (hsafe : roundSafe line = true)
    (hfix : (processLine B st line).2 = line) :
    processLine B st ((processLine A st line).2) = processLine B st line := by
  by_cases hS : containsSub startMarker line = true
  · rw [processLine_start A st line hS]
  · rw [Bool.not_eq_true] at hS
    by_cases hE : containsSub endMarker line = true
    · rw [processLine_endm A st line hS hE]
    · rw [Bool.not_eq_true] at hE
      by_cases hB : st.inBlock = true
      · by_cases hC : containsSub cfgWord line = true
        · cases hsrch : searchCfg line with
          | some w => rw [processLine_header_some A st line w hS hE hB hC hsrch]
          | none => rw [processLine_header_none A st line hS hE hB hC hsrch]
        · rw [Bool.not_eq_true] at hC
          cases hsf : sectionFalsy st.currentSection with
          | true => rw [processLine_falsy A st line hS hE hB hC (by rw [hsf]; rfl)]
          | false =>
            cases hbl : isBlank line with
            | true => rw [processLine_falsy A st line hS hE hB hC (by rw [hsf, hbl]; rfl)]
            | false =>
              cases hcs : st.currentSection with
              | none => rw [hcs] at hsf; simp [sectionFalsy] at hsf
              | some sec =>
                have hsecne : sec.isEmpty = false := by
                  rw [hcs] at hsf
                  simpa [sectionFalsy] using hsf
                have hiws : ∀ x ∈ line.takeWhile isSpaceChar, isSpaceChar x = true :=
                  fun x hx => List.mem_takeWhile_imp hx
                by_cases hactB : (sec == B) = true
                · -- the section is the active one under the original platform B
                  have hcom : containsSub slashes line = false := by
                    cases hcm : containsSub slashes line with
                    | false => rfl
                    | true =>
                      have htg := processLine_toggle_on B st line sec
                        hS hE hB hC hcs hsecne hbl hactB hcm
                      rw [htg] at hfix
                      exact absurd hfix (replaceFirst_slashes_ne line hcm)
                  by_cases hactA : (sec == A) = true
                  · rw [processLine_noop_active A st line sec
                      hS hE hB hC hcs hsecne hbl hactA hcom]
                  · rw [Bool.not_eq_true] at hactA
                    rw [processLine_toggle_off A st line sec
                      hS hE hB hC hcs hsecne hbl hactA hcom]
                    rw [processLine_noop_active B st line sec
                      hS hE hB hC hcs hsecne hbl hactB hcom]
                    obtain ⟨hoS, hoE, hoC, hocom, honb⟩ := commented_facts line hS hE hC
                    have hstep := processLine_toggle_on B st
                      (line.takeWhile isSpaceChar ++ slashes ++ line.dropWhile isSpaceChar)
                      sec hoS hoE hB hoC hcs hsecne honb hactB hocom
                    have hrw : replaceFirst slashes
                        (line.takeWhile isSpaceChar ++ slashes ++ line.dropWhile isSpaceChar)
                        = line := by
                      rw [List.append_assoc]
                      show replaceFirst slashes (line.takeWhile isSpaceChar ++
                        '/' :: '/' :: line.dropWhile isSpaceChar) = line
                      rw [replaceFirst_ws_append _ _ hiws,
                        List.takeWhile_append_dropWhile]
                    rw [hrw] at hstep
                    exact hstep
                · rw [Bool.not_eq_true] at hactB
                  have hcom : containsSub slashes line = true := by
                    cases hcm : containsSub slashes line with
                    | true => rfl
                    | false =>
                      have htg := processLine_toggle_off B st line sec
                        hS hE hB hC hcs hsecne hbl hactB hcm
                      rw [htg] at hfix
                      exact absurd hfix (comment_ne line)
                  obtain ⟨d, c', hdw, hd, hnosl⟩ :=
                    roundSafe_elim line hsafe hS hE hC hcom
                  by_cases hactA : (sec == A) = true
                  · rw [processLine_toggle_on A st line sec
                      hS hE hB hC hcs hsecne hbl hactA hcom]
                    rw [processLine_noop_inactive B st line sec
                      hS hE hB hC hcs hsecne hbl hactB hcom]
                    have hline : line = line.takeWhile isSpaceChar ++ '/' :: '/' :: d :: c' := by
                      have h0 := (List.takeWhile_append_dropWhile isSpaceChar line).symm
                      rw [hdw] at h0
                      exact h0
                    have hrepl : replaceFirst slashes line
                        = line.takeWhile isSpaceChar ++ d :: c' := by
                      conv_lhs => rw [hline]
                      exact replaceFirst_ws_append _ _ hiws
                    have key2 : ∀ q : List Char, (∀ x ∈ q, isSpaceChar x = false) →
                        containsSub q line = false →
                        containsSub q (line.takeWhile isSpaceChar ++ d :: c') = false := by
                      intro q hqs hql
                      cases hqq : containsSub q (line.takeWhile isSpaceChar ++ d :: c') with
                      | false => rfl
                      | true =>
                        have h2 := containsSub_ws_append q hqs
                          (line.takeWhile isSpaceChar) (d :: c') hiws hqq
                        have h3 : containsSub q line = true := by
                          rw [hline]
                          exact containsSub_append_right _ _ _
                            (containsSub_cons _ _ _ (containsSub_cons _ _ _ h2))
                        rw [hql] at h3
                        cases h3
                    have hrS := key2 startMarker noSpace_startMarker hS
                    have hrE := key2 endMarker noSpace_endMarker hE
                    have hrC := key2 cfgWord noSpace_cfgWord hC
                    have hrcom : containsSub slashes
                        (line.takeWhile isSpaceChar ++ d :: c') = false := by
                      cases hqq : containsSub slashes
                          (line.takeWhile isSpaceChar ++ d :: c') with
                      | false => rfl
                      | true =>
                        have h2 := containsSub_ws_append slashes noSpace_slashes
                          (line.takeWhile isSpaceChar) (d :: c') hiws hqq
                        rw [hnosl] at h2
                        cases h2
                    have hrnb : isBlank (line.takeWhile isSpaceChar ++ d :: c') = false := by
                      simp [isBlank, List.all_append, hd]
                    have hstep := processLine_toggle_off B st
                      (line.takeWhile isSpaceChar ++ d :: c') sec
                      hrS hrE hB hrC hcs hsecne hrnb hactB hrcom
                    have htk := takeWhile_ws_append (line.takeWhile isSpaceChar) d c' hiws hd
                    rw [htk.1, htk.2] at hstep
                    have hfin : line.takeWhile isSpaceChar ++ slashes ++ d :: c' = line := by
                      rw [List.append_assoc]
                      exact hline.symm
                    rw [hfin] at hstep
                    rw [← hrepl] at hstep
                    exact hstep
                  · rw [Bool.not_eq_true] at hactA
                    rw [processLine_noop_inactive A st line sec
                      hS hE hB hC hcs hsecne hbl hactA hcom]
      · rw [Bool.not_eq_true] at hB
        rw [processLine_outside A st line hS hE hB]

/-- The round trip along the whole file, by induction over the lines. -/
lemma processLines_roundTrip (A B : List Char) :
    ∀ (lines : List (List Char)) (st : SwitchState),
      (∀ l ∈ lines, roundSafe l = true) →
      processLines B st lines = lines →
      processLines B st (processLines A st lines) = lines := by
  intro lines
  induction lines with
  | nil => intro st _ _; rfl
  | cons l t ih =>
    intro st hsafe hfix
    have hfix0 : (processLine B st l).2 :: processLines B (processLine B st l).1 t
        = l :: t := hfix
    injection hfix0 with h1 h2
    have hstates : (processLine A st l).1 = (processLine B st l).1 := by
      rw [fst_processLine, fst_processLine]
    have hstep := processLine_roundTrip A B st l (hsafe l (by simp)) h1
    show (processLine B st ((processLine A st l).2)).2 ::
        processLines B (processLine B st ((processLine A st l).2)).1
          (processLines A (processLine A st l).1 t) = l :: t
    rw [hstep, h1, hstates]
    exact congrArg _ (ih (processLine B st l).1 (fun x hx => hsafe x (by simp [hx])) h2)

/-- C3 counterexample: a file that a `MacOS` run leaves unchanged (so `MacOS`
is the originally active platform) but whose commented line `a//b` does not
have its `//` directly after the indentation; toggling to `Windows` and back
to `MacOS` yields `//ab` instead of `a//b`. -/
def c3BadLines : List (List Char) :=
  [L "PLATFORM_SWITCH_START\n",
   L "// Windows Configuration\n",
   L "a//b\n",
   L "PLATFORM_SWITCH_END\n"]

/-- C3 is false as stated: toggling to platform A and back to the originally
active platform need not restore the file. -/
theorem c3_counterexample :
    process_file (L "MacOS") c3BadLines = c3BadLines ∧
    process_file (L "MacOS") (process_file (L "Windows") c3BadLines) ≠ c3BadLines := by
  decide

/-- C3 (amended): if the original file is a fixed point of `process_file`
under the originally active platform `B`, and every line is in canonical
comment form (`roundSafe`), then running with any platform `A` and then with
`B` restores the file exactly. -/
theorem c3_round_trip (A B : List Char) (lines : List (List Char))
    (hsafe : ∀ l ∈ lines, roundSafe l = true)
    (hfix : process_file B lines = lines) :
    process_file B (process_file A lines) = lines :=
  processLines_roundTrip A B lines _ hsafe hfix

/-- Witness for the amended C3: the fixture (both lines commented) is fixed
under `Linux`; a `Windows` run then a `Linux` run restore it. -/
theorem c3_witness :
    process_file (L "Linux") (process_file (L "Windows") fixtureLines) = fixtureLines :=
  c3_round_trip (L "Windows") (L "Linux") fixtureLines (by decide) (by decide)
